import Mathlib

/-!
Verification of the provenance-tracking text builder and diagnostic
back-mapper of the `portal` repository.

The embedding follows `src/code_generation.rs` and the diagnostic routing
loop of `src/gui/scene.rs`:

* `ErrId` (`pub struct ErrId(pub usize)`) is embedded as `Nat`, which carries
  the same total order;
* `LineNumbersByKey` (`BTreeMap<ErrId, Range<usize>>`) is embedded as an
  association list kept sorted by key: iteration in the Rust code is always
  in key order, and `add` inserts with `insertSorted` exactly as a B-tree
  insertion of an absent key does;
* `StringStorage` keeps the three fields of the Rust struct;
* panics (`assert!` in `LineNumbersByKey::add`, `.expect` in
  `apply_template`) are embedded as `none`;
* the error-bucket map `BTreeMap<ErrId, Vec<(usize, String)>>` built in
  `Scene::get_new_material` is embedded as an association list where
  `bucketsPush` is `entry(id).or_insert_with(default).push(x)`; only the
  per-key contents are observed by the theorems, never the key iteration
  order;
* `usize::MAX` is `2 ^ 64 - 1`.
-/

namespace Portal

/-- `pub struct ErrId(pub usize)`, ordered by its `usize`. -/
abbrev ErrId := Nat

/-- `ErrId::default()`, the reserved identifier `ErrId(0)`. -/
def errIdDefault : ErrId := 0

/-- The four entity categories that implement the `ErrorId` trait. -/
inductive EntityCategory where
  | material
  | object
  | libraryCode
  | matrix
deriving DecidableEq

/-- The `ErrorId::identifier` implementations: `Material -> ErrId(1000+pos)`,
`Object -> ErrId(2000+pos)`, `LibraryCode -> ErrId(3000+pos)`,
`Matrix -> ErrId(4000+pos)`. -/
def identifier : EntityCategory → Nat → ErrId
  | EntityCategory.material, pos => (1000 + pos : Nat)
  | EntityCategory.object, pos => (2000 + pos : Nat)
  | EntityCategory.libraryCode, pos => (3000 + pos : Nat)
  | EntityCategory.matrix, pos => (4000 + pos : Nat)

/-- `Range<usize>`: the half-open interval `start..stop`. -/
structure LineRange where
  start : Nat
  stop : Nat
deriving DecidableEq

/-- `Range::<usize>::contains`. -/
def containsLine (r : LineRange) (n : Nat) : Bool :=
  decide (r.start ≤ n) && decide (n < r.stop)

/-- `LineNumbersByKey(pub BTreeMap<ErrId, Range<usize>>)` as a key-sorted
association list. -/
abbrev LineNumbersByKey := List (ErrId × LineRange)

/-- `BTreeMap::get`. -/
def lnbkGet (m : LineNumbersByKey) (id : ErrId) : Option LineRange :=
  (m.find? fun e => e.1 == id).map fun e => e.2

/-- `BTreeMap::insert` for the sorted-association-list representation. -/
def insertSorted (id : ErrId) (r : LineRange) : LineNumbersByKey → LineNumbersByKey
  | [] => [(id, r)]
  | (k, v) :: rest =>
    if id < k then (id, r) :: (k, v) :: rest
    else if id = k then (id, r) :: rest
    else (k, v) :: insertSorted id r rest

/-- `LineNumbersByKey::offset`: shift every range by `lines`. -/
def LineNumbersByKey.offset (m : LineNumbersByKey) (lines : Nat) : LineNumbersByKey :=
  m.map fun e => (e.1, LineRange.mk (e.2.start + lines) (e.2.stop + lines))

/-- `LineNumbersByKey::add`: `assert!(get(id).is_none())` (panic is `none`)
then insert. -/
def LineNumbersByKey.add (m : LineNumbersByKey) (id : ErrId) (r : LineRange) :
    Option LineNumbersByKey :=
  match lnbkGet m id with
  | some _ => none
  | none => some (insertSorted id r m)

/-- `LineNumbersByKey::extend`: `add` every entry of `other` in key order. -/
def LineNumbersByKey.extend : LineNumbersByKey → LineNumbersByKey → Option LineNumbersByKey
  | m, [] => some m
  | m, (k, v) :: rest =>
    match LineNumbersByKey.add m k v with
    | none => none
    | some m2 => LineNumbersByKey.extend m2 rest

/-- `LineNumbersByKey::get_identifier`: first entry in key order whose range
contains `line_no`, with the 1-indexed local line. -/
def LineNumbersByKey.get_identifier (m : LineNumbersByKey) (line_no : Nat) :
    Option (ErrId × Nat) :=
  (m.find? fun e => containsLine e.2 line_no).map fun e =>
    (e.1, line_no - e.2.start + 1)

/-- `pub struct StringStorage`. -/
structure StringStorage where
  storage : String
  line_numbers : LineNumbersByKey
  current_line_no : Nat
deriving DecidableEq

/-- `StringStorage::default()`: empty buffer, empty index, cursor 1. -/
def StringStorage.default : StringStorage :=
  StringStorage.mk "" [] 1

/-- `s.chars().filter(|c| *c == '\n').count()`. -/
def countNewlines (s : String) : Nat :=
  (s.data.filter fun c => c == '\n').length

/-- `StringStorage::add_string`. -/
def StringStorage.add_string (b : StringStorage) (s : String) : StringStorage :=
  StringStorage.mk (b.storage ++ s) b.line_numbers
    (b.current_line_no + countNewlines s)

/-- `StringStorage::add_identifier_string`. -/
def StringStorage.add_identifier_string (b : StringStorage) (id : ErrId) (s : String) :
    Option StringStorage :=
  let b2 := StringStorage.add_string b s
  match LineNumbersByKey.add b2.line_numbers id
      (LineRange.mk b.current_line_no (b2.current_line_no + 1)) with
  | none => none
  | some ln => some (StringStorage.mk b2.storage ln b2.current_line_no)

/-- `StringStorage::add_string_storage`: offset `other`'s index by
`current_line_no - 1`, append `other`'s buffer, extend the index. -/
def StringStorage.add_string_storage (b : StringStorage) (other : StringStorage) :
    Option StringStorage :=
  let shifted := LineNumbersByKey.offset other.line_numbers (b.current_line_no - 1)
  let b2 := StringStorage.add_string b other.storage
  match LineNumbersByKey.extend b2.line_numbers shifted with
  | none => none
  | some ln => some (StringStorage.mk b2.storage ln b2.current_line_no)

/-- Character-level worker for `str::split` with a non-empty pattern:
`skip` counts pattern characters still to be consumed after a match. -/
def splitGo (sep : List Char) : List Char → Nat → List Char → List (List Char)
  | [], _, acc => [acc.reverse]
  | _ :: rest, skip + 1, acc => splitGo sep rest skip acc
  | c :: rest, 0, acc =>
    if sep.isPrefixOf (c :: rest) then
      acc.reverse :: splitGo sep rest (sep.length - 1) []
    else splitGo sep rest 0 (c :: acc)

/-- `str::split` on a non-empty pattern: the pieces between the
non-overlapping occurrences of `sep`, scanned left to right. -/
def rustSplit (s sep : String) : List String :=
  (splitGo sep.data s.data 0 []).map fun l => String.mk l

/-- `BTreeMap::<String, StringStorage>::remove`, returning the removed value
and the remaining map. -/
def storagesRemove : List (String × StringStorage) → String →
    Option (StringStorage × List (String × StringStorage))
  | [], _ => none
  | (k, v) :: rest, s =>
    if k = s then some (v, rest)
    else (storagesRemove rest s).map fun p => (p.1, (k, v) :: p.2)

/-- `template.split("//%").enumerate().map(|(pos, s)| (pos % 2 == 1, s))`. -/
def tagTemplatePieces (pieces : List String) : List (Bool × String) :=
  pieces.enum.map fun p => (p.1 % 2 == 1, p.2)

/-- The loop body of `apply_template` over the tagged pieces; `.expect` on a
missing name and the panics inside `add_string_storage` are `none`. -/
def applyTemplateGo : StringStorage → List (String × StringStorage) →
    List (Bool × String) → Option StringStorage
  | result, _, [] => some result
  | result, storages, (isName, s) :: rest =>
    if isName then
      match storagesRemove storages s with
      | none => none
      | some (other, storages2) =>
        match StringStorage.add_string_storage result other with
        | none => none
        | some r2 => applyTemplateGo r2 storages2 rest
    else applyTemplateGo (StringStorage.add_string result s) storages rest

/-- `apply_template`. -/
def apply_template (template : String) (storages : List (String × StringStorage)) :
    Option StringStorage :=
  applyTemplateGo StringStorage.default storages
    (tagTemplatePieces (rustSplit template "//%"))

/-- One raw diagnostic as produced by the parser collaborator:
`Ok((line, message))` or `Err(message)`. -/
abbrev Diag := Except String (Nat × String)

/-- `usize::MAX`, the sentinel local line for unparsed messages. -/
def usizeMax : Nat := 2 ^ 64 - 1

/-- The error-bucket map `BTreeMap<ErrId, Vec<(usize, String)>>`. -/
abbrev Buckets := List (ErrId × List (Nat × String))

/-- `errors.entry(id).or_insert_with(default).push(x)`. -/
def bucketsPush : Buckets → ErrId → Nat × String → Buckets
  | [], id, x => [(id, [x])]
  | (k, v) :: rest, id, x =>
    if id = k then (k, v ++ [x]) :: rest
    else (k, v) :: bucketsPush rest id x

/-- Lookup of a bucket's contents, `[]` when the key is absent. -/
def bucketsGetD : Buckets → ErrId → List (Nat × String)
  | [], _ => []
  | (k, v) :: rest, id => if id = k then v else bucketsGetD rest id

/-- The `match x` body of the routing loop in `Scene::get_new_material`. -/
def routeDiag (ln : LineNumbersByKey) (errors : Buckets) (d : Diag) : Buckets :=
  match d with
  | Except.ok (line_no, message) =>
    match LineNumbersByKey.get_identifier ln line_no with
    | some (id, local_line_no) => bucketsPush errors id (local_line_no, message)
    | none => bucketsPush errors errIdDefault (line_no, message)
  | Except.error message => bucketsPush errors errIdDefault (usizeMax, message)

/-- The whole routing loop of `Scene::get_new_material`, starting from the
empty bucket map. -/
def collectErrors (ln : LineNumbersByKey) (diags : List Diag) : Buckets :=
  diags.foldl (routeDiag ln) []

/-- The `BTreeMap` representation invariant of the association list: keys
strictly increasing. -/
def lnbkSortedKeys (m : LineNumbersByKey) : Prop :=
  m.Pairwise fun a b => a.1 < b.1

/-- The builders reachable from `StringStorage::default()` by the public
mutation API (`add_string`, `add_identifier_string`, `add_string_storage`). -/
inductive Reachable : StringStorage → Prop
  | base : Reachable StringStorage.default
  | step_add_string (b : StringStorage) (s : String) :
      Reachable b → Reachable (StringStorage.add_string b s)
  | step_add_identifier_string (b : StringStorage) (id : ErrId) (s : String)
      (c : StringStorage) : Reachable b →
      StringStorage.add_identifier_string b id s = some c → Reachable c
  | step_add_string_storage (a b c : StringStorage) : Reachable a → Reachable b →
      StringStorage.add_string_storage a b = some c → Reachable c

/-- Specification-side view of the routing loop: the contribution of one raw
diagnostic to the bucket of `id`, read off the `match` in
`Scene::get_new_material`.  `none` means the diagnostic goes to some other
bucket. -/
def routedTo (ln : LineNumbersByKey) (id : ErrId) (d : Diag) : Option (Nat × String) :=
  match d with
  | Except.ok (l, msg) =>
    match LineNumbersByKey.get_identifier ln l with
    | some (i, loc) => if i = id then some (loc, msg) else none
    | none => if errIdDefault = id then some (l, msg) else none
  | Except.error msg => if errIdDefault = id then some (usizeMax, msg) else none

/-! ### Helper lemmas about the provenance index -/

theorem lnbkGet_eq_none_iff (m : LineNumbersByKey) (id : ErrId) :
    lnbkGet m id = none ↔ ∀ r : LineRange, (id, r) ∉ m := by
  simp only [lnbkGet, Option.map_eq_none', List.find?_eq_none]
  constructor
  · intro h r hr
    have := h (id, r) hr
    simp at this
  · intro h e he hpe
    have h1 : e.1 = id := by simpa using hpe
    exact h e.2 (by simpa [← h1] using he)

theorem lnbkGet_some_mem (m : LineNumbersByKey) (id : ErrId) (r : LineRange)
    (h : lnbkGet m id = some r) : (id, r) ∈ m := by
  simp only [lnbkGet, Option.map_eq_some'] at h
  obtain ⟨e, he, hr⟩ := h
  have h1 : e.1 = id := by simpa using List.find?_some he
  have h2 : e ∈ m := List.mem_of_find?_eq_some he
  have : e = (id, r) := by
    cases e; simp_all
  simpa [this] using h2

theorem mem_insertSorted_iff (m : LineNumbersByKey) (id : ErrId) (r : LineRange)
    (habs : lnbkGet m id = none) (e : ErrId × LineRange) :
    e ∈ insertSorted id r m ↔ e = (id, r) ∨ e ∈ m := by
  induction m with
  | nil => simp [insertSorted]
  | cons hd tl ih =>
    obtain ⟨k, v⟩ := hd
    have hne : ¬id = k := by
      intro hkq
      exact (lnbkGet_eq_none_iff _ _).mp habs v (by simp [hkq])
    have htl : lnbkGet tl id = none := by
      rw [lnbkGet_eq_none_iff] at habs ⊢
      intro r2 hr2
      exact habs r2 (List.mem_cons_of_mem _ hr2)
    rcases lt_or_ge id k with hlt | hge
    · simp only [insertSorted, if_pos hlt, List.mem_cons]
    · have hnlt : ¬id < k := not_lt_of_ge hge
      simp only [insertSorted, if_neg hnlt, if_neg hne, List.mem_cons, ih htl]
      tauto

theorem add_eq_some_iff (m m2 : LineNumbersByKey) (id : ErrId) (r : LineRange) :
    LineNumbersByKey.add m id r = some m2 ↔
      lnbkGet m id = none ∧ m2 = insertSorted id r m := by
  unfold LineNumbersByKey.add
  cases h : lnbkGet m id <;> simp [h, eq_comm]

theorem add_eq_none_of_get_some (m : LineNumbersByKey) (id : ErrId)
    (r0 r : LineRange) (h : lnbkGet m id = some r0) :
    LineNumbersByKey.add m id r = none := by
  unfold LineNumbersByKey.add
  rw [h]

theorem extend_some_mem (o : LineNumbersByKey) :
    ∀ (m m2 : LineNumbersByKey), LineNumbersByKey.extend m o = some m2 →
      (∀ e, e ∈ m → e ∈ m2) ∧ (∀ e, e ∈ o → e ∈ m2) ∧
      (∀ e, e ∈ m2 → e ∈ m ∨ e ∈ o) := by
  induction o with
  | nil =>
    intro m m2 h
    simp only [LineNumbersByKey.extend] at h
    subst_eqs
    exact ⟨fun e he => he, by simp, fun e he => Or.inl he⟩
  | cons hd tl ih =>
    intro m m2 h
    obtain ⟨k, v⟩ := hd
    simp only [LineNumbersByKey.extend] at h
    cases hadd : LineNumbersByKey.add m k v with
    | none => rw [hadd] at h; exact absurd h (by simp)
    | some m1 =>
      rw [hadd] at h
      obtain ⟨habs, hm1⟩ := (add_eq_some_iff m m1 k v).mp hadd
      subst hm1
      obtain ⟨h1, h2, h3⟩ := ih _ _ h
      refine ⟨?_, ?_, ?_⟩
      · intro e he
        exact h1 e ((mem_insertSorted_iff m k v habs e).mpr (Or.inr he))
      · intro e he
        rcases List.mem_cons.mp he with he | he
        · exact h1 e ((mem_insertSorted_iff m k v habs e).mpr (Or.inl he))
        · exact h2 e he
      · intro e he
        rcases h3 e he with he2 | he2
        · rcases (mem_insertSorted_iff m k v habs e).mp he2 with he3 | he3
          · exact Or.inr (by simp [he3])
          · exact Or.inl he3
        · exact Or.inr (List.mem_cons_of_mem _ he2)

theorem extend_eq_none_of_dup (id : ErrId) (o : LineNumbersByKey) :
    ∀ (m : LineNumbersByKey) (rm ro : LineRange), (id, rm) ∈ m → (id, ro) ∈ o →
      LineNumbersByKey.extend m o = none := by
  induction o with
  | nil => intro m rm ro _ ho; simp at ho
  | cons hd tl ih =>
    intro m rm ro hm ho
    obtain ⟨k, v⟩ := hd
    simp only [LineNumbersByKey.extend]
    cases hadd : LineNumbersByKey.add m k v with
    | none => rfl
    | some m1 =>
      obtain ⟨habs, hm1⟩ := (add_eq_some_iff m m1 k v).mp hadd
      have hkne : ¬id = k := by
        intro hkq
        exact (lnbkGet_eq_none_iff m k).mp habs rm (hkq ▸ hm)
      have ho2 : (id, ro) ∈ tl := by
        rcases List.mem_cons.mp ho with h | h
        · exact absurd (congrArg Prod.fst h) (by simpa using hkne)
        · exact h
      subst hm1
      exact ih _ rm ro ((mem_insertSorted_iff m k v habs _).mpr (Or.inr hm)) ho2

theorem mem_offset_iff (m : LineNumbersByKey) (d : Nat) (e : ErrId × LineRange) :
    e ∈ LineNumbersByKey.offset m d ↔
      ∃ id r, (id, r) ∈ m ∧ e = (id, LineRange.mk (r.start + d) (r.stop + d)) := by
  simp only [LineNumbersByKey.offset, List.mem_map]
  constructor
  · rintro ⟨⟨id, r⟩, hmem, rfl⟩
    exact ⟨id, r, hmem, rfl⟩
  · rintro ⟨id, r, hmem, rfl⟩
    exact ⟨(id, r), hmem, rfl⟩

/-! ### Helper lemmas about the diagnostic buckets -/

theorem bucketsGetD_push (bs : Buckets) (id : ErrId) (x : Nat × String) (id2 : ErrId) :
    bucketsGetD (bucketsPush bs id x) id2 =
      if id2 = id then bucketsGetD bs id2 ++ [x] else bucketsGetD bs id2 := by
  induction bs with
  | nil =>
    by_cases h : id2 = id
    · subst h; simp [bucketsPush, bucketsGetD]
    · simp [bucketsPush, bucketsGetD, h]
  | cons hd tl ih =>
    obtain ⟨k, v⟩ := hd
    by_cases hik : id = k
    · subst hik
      simp only [bucketsPush, if_pos rfl, bucketsGetD]
      by_cases h : id2 = id
      · simp [h]
      · simp [h]
    · simp only [bucketsPush, if_neg hik, bucketsGetD]
      by_cases h : id2 = k
      · subst h
        have h2 : ¬id2 = id := fun hq => hik (hq ▸ rfl)
        simp [h2]
      · simp [h, ih]

theorem bucketsGetD_routeDiag (ln : LineNumbersByKey) (acc : Buckets) (d : Diag)
    (id : ErrId) :
    bucketsGetD (routeDiag ln acc d) id =
      bucketsGetD acc id ++ (routedTo ln id d).toList := by
  cases d with
  | ok p =>
    obtain ⟨l, msg⟩ := p
    cases hg : LineNumbersByKey.get_identifier ln l with
    | none =>
      simp only [routeDiag, routedTo, hg, bucketsGetD_push]
      by_cases h : errIdDefault = id
      · subst h; simp
      · rw [if_neg (fun hq => h hq.symm), if_neg h]; simp
    | some p2 =>
      obtain ⟨i, loc⟩ := p2
      simp only [routeDiag, routedTo, hg, bucketsGetD_push]
      by_cases h : i = id
      · subst h; simp
      · rw [if_neg (fun hq => h hq.symm), if_neg h]; simp
  | error msg =>
    simp only [routeDiag, routedTo, bucketsGetD_push]
    by_cases h : errIdDefault = id
    · subst h; simp
    · rw [if_neg (fun hq => h hq.symm), if_neg h]; simp

theorem bucketsGetD_foldl (ln : LineNumbersByKey) (diags : List Diag) :
    ∀ (acc : Buckets) (id : ErrId),
      bucketsGetD (diags.foldl (routeDiag ln) acc) id =
        bucketsGetD acc id ++ diags.filterMap (routedTo ln id) := by
  induction diags with
  | nil => intro acc id; simp
  | cons d rest ih =>
    intro acc id
    simp only [List.foldl_cons]
    rw [ih]
    rw [bucketsGetD_routeDiag]
    rw [List.append_assoc]
    congr 1
    cases h : routedTo ln id d <;> simp [List.filterMap_cons, h, Option.toList]

/-! ### Inversion lemmas for the builder operations -/

theorem countNewlines_append (a b : String) :
    countNewlines (a ++ b) = countNewlines a + countNewlines b := by
  simp [countNewlines, String.data_append, List.filter_append]

theorem add_identifier_string_some_fields (b : StringStorage) (id : ErrId) (s : String)
    (c : StringStorage) (h : StringStorage.add_identifier_string b id s = some c) :
    c.storage = b.storage ++ s ∧
      c.current_line_no = b.current_line_no + countNewlines s ∧
      LineNumbersByKey.add b.line_numbers id
        (LineRange.mk b.current_line_no (b.current_line_no + countNewlines s + 1))
        = some c.line_numbers := by
  have h2 : (match LineNumbersByKey.add b.line_numbers id
      (LineRange.mk b.current_line_no (b.current_line_no + countNewlines s + 1)) with
    | none => (none : Option StringStorage)
    | some ln => some (StringStorage.mk (b.storage ++ s) ln
        (b.current_line_no + countNewlines s))) = some c := h
  cases hadd : LineNumbersByKey.add b.line_numbers id
      (LineRange.mk b.current_line_no (b.current_line_no + countNewlines s + 1)) with
  | none => rw [hadd] at h2; exact absurd h2 (by simp)
  | some ln =>
    rw [hadd] at h2
    have h3 := Option.some.inj h2
    refine ⟨?_, ?_, ?_⟩ <;> rw [← h3]

theorem add_string_storage_some_fields (a b c : StringStorage)
    (h : StringStorage.add_string_storage a b = some c) :
    c.storage = a.storage ++ b.storage ∧
      c.current_line_no = a.current_line_no + countNewlines b.storage ∧
      LineNumbersByKey.extend a.line_numbers
        (LineNumbersByKey.offset b.line_numbers (a.current_line_no - 1))
        = some c.line_numbers := by
  have h2 : (match LineNumbersByKey.extend a.line_numbers
      (LineNumbersByKey.offset b.line_numbers (a.current_line_no - 1)) with
    | none => (none : Option StringStorage)
    | some ln => some (StringStorage.mk (a.storage ++ b.storage) ln
        (a.current_line_no + countNewlines b.storage))) = some c := h
  cases hext : LineNumbersByKey.extend a.line_numbers
      (LineNumbersByKey.offset b.line_numbers (a.current_line_no - 1)) with
  | none => rw [hext] at h2; exact absurd h2 (by simp)
  | some ln =>
    rw [hext] at h2
    have h3 := Option.some.inj h2
    refine ⟨?_, ?_, ?_⟩ <;> rw [← h3]

theorem add_identifier_string_eq_none (b : StringStorage) (id : ErrId) (s : String)
    (r0 : LineRange) (hdup : lnbkGet b.line_numbers id = some r0) :
    StringStorage.add_identifier_string b id s = none := by
  have hadd : LineNumbersByKey.add b.line_numbers id
      (LineRange.mk b.current_line_no (b.current_line_no + countNewlines s + 1)) = none :=
    add_eq_none_of_get_some _ id r0 _ hdup
  show (match LineNumbersByKey.add b.line_numbers id
      (LineRange.mk b.current_line_no (b.current_line_no + countNewlines s + 1)) with
    | none => (none : Option StringStorage)
    | some ln => some (StringStorage.mk (b.storage ++ s) ln
        (b.current_line_no + countNewlines s))) = none
  rw [hadd]

theorem add_string_storage_eq_none_of_dup (a b : StringStorage) (id : ErrId)
    (rm r2 : LineRange) (ha : (id, rm) ∈ a.line_numbers)
    (hb : (id, r2) ∈ b.line_numbers) :
    StringStorage.add_string_storage a b = none := by
  have hsh : (id, LineRange.mk (r2.start + (a.current_line_no - 1))
      (r2.stop + (a.current_line_no - 1)))
      ∈ LineNumbersByKey.offset b.line_numbers (a.current_line_no - 1) :=
    (mem_offset_iff _ _ _).mpr ⟨id, r2, hb, rfl⟩
  have hext : LineNumbersByKey.extend a.line_numbers
      (LineNumbersByKey.offset b.line_numbers (a.current_line_no - 1)) = none :=
    extend_eq_none_of_dup id _ a.line_numbers rm _ ha hsh
  show (match LineNumbersByKey.extend a.line_numbers
      (LineNumbersByKey.offset b.line_numbers (a.current_line_no - 1)) with
    | none => (none : Option StringStorage)
    | some ln => some (StringStorage.mk (a.storage ++ b.storage) ln
        (a.current_line_no + countNewlines b.storage))) = none
  rw [hext]

/-! ### Helper lemmas about template expansion -/

theorem storagesRemove_some_mem (s : String) (l : List (String × StringStorage)) :
    ∀ (v : StringStorage) (l2 : List (String × StringStorage)),
      storagesRemove l s = some (v, l2) → (s, v) ∈ l := by
  induction l with
  | nil => intro v l2 h; simp [storagesRemove] at h
  | cons hd tl ih =>
    intro v l2 h
    obtain ⟨k, w⟩ := hd
    simp only [storagesRemove] at h
    by_cases hk : k = s
    · rw [if_pos hk] at h
      have h2 := Option.some.inj h
      have hv : w = v := congrArg Prod.fst h2
      exact List.mem_cons.mpr (Or.inl (by rw [← hk, hv]))
    · rw [if_neg hk] at h
      cases hr : storagesRemove tl s with
      | none => rw [hr] at h; exact absurd h (by simp)
      | some p =>
        rw [hr] at h
        have h2 : (p.1, (k, w) :: p.2) = (v, l2) := Option.some.inj (by simpa using h)
        have hv : p.1 = v := congrArg Prod.fst h2
        exact List.mem_cons_of_mem _ (hv ▸ ih p.1 p.2 hr)

theorem storagesRemove_rest_subset (s : String) (l : List (String × StringStorage)) :
    ∀ (v : StringStorage) (l2 : List (String × StringStorage)),
      storagesRemove l s = some (v, l2) → ∀ e, e ∈ l2 → e ∈ l := by
  induction l with
  | nil => intro v l2 h; simp [storagesRemove] at h
  | cons hd tl ih =>
    intro v l2 h e he
    obtain ⟨k, w⟩ := hd
    simp only [storagesRemove] at h
    by_cases hk : k = s
    · rw [if_pos hk] at h
      have h2 := Option.some.inj h
      have hl : tl = l2 := congrArg Prod.snd h2
      exact List.mem_cons_of_mem _ (hl ▸ he)
    · rw [if_neg hk] at h
      cases hr : storagesRemove tl s with
      | none => rw [hr] at h; exact absurd h (by simp)
      | some p =>
        rw [hr] at h
        have h2 := Option.some.inj h
        have hl : (k, w) :: p.2 = l2 := congrArg Prod.snd h2
        rw [← hl] at he
        rcases List.mem_cons.mp he with he2 | he2
        · exact List.mem_cons.mpr (Or.inl he2)
        · exact List.mem_cons_of_mem _ (ih p.1 p.2 hr e he2)

theorem applyTemplateGo_missing_none (s : String) (pieces : List (Bool × String)) :
    ∀ (acc : StringStorage) (storages : List (String × StringStorage)),
      (true, s) ∈ pieces → (∀ v : StringStorage, (s, v) ∉ storages) →
      applyTemplateGo acc storages pieces = none := by
  induction pieces with
  | nil => intro acc st hmem _; simp at hmem
  | cons hd tl ih =>
    intro acc st hmem habs
    obtain ⟨isName, t⟩ := hd
    cases isName with
    | false =>
      have hmem2 : (true, s) ∈ tl := by
        rcases List.mem_cons.mp hmem with h | h
        · exact absurd (congrArg Prod.fst h) (by simp)
        · exact h
      simpa only [applyTemplateGo, if_neg Bool.false_ne_true] using
        ih (StringStorage.add_string acc t) st hmem2 habs
    | true =>
      show (match storagesRemove st t with
        | none => (none : Option StringStorage)
        | some (other, storages2) =>
          match StringStorage.add_string_storage acc other with
          | none => none
          | some r2 => applyTemplateGo r2 storages2 tl) = none
      cases hr : storagesRemove st t with
      | none => rfl
      | some p =>
        obtain ⟨other, st2⟩ := p
        show (match StringStorage.add_string_storage acc other with
          | none => (none : Option StringStorage)
          | some r2 => applyTemplateGo r2 st2 tl) = none
        by_cases hts : t = s
        · exact absurd (storagesRemove_some_mem s st other st2 (hts ▸ hr))
            (habs other)
        · have hmem2 : (true, s) ∈ tl := by
            rcases List.mem_cons.mp hmem with h | h
            · exact absurd (congrArg Prod.snd h).symm hts
            · exact h
          have habs2 : ∀ v : StringStorage, (s, v) ∉ st2 := by
            intro v hv
            exact habs v (storagesRemove_rest_subset t st other st2 hr _ hv)
          cases hss : StringStorage.add_string_storage acc other with
          | none => rfl
          | some r2 => exact ih r2 st2 hmem2 habs2

/-! ### Claim theorems -/

/-- C1: splicing builder `b` into builder `a` (`add_string_storage`) shifts
every range of `b`'s provenance index by exactly `a.current_line_no - 1` in
both bounds, merges the shifted entries into `a`'s index (the resulting
index holds exactly `a`'s entries together with the shifted entries of `b`),
and leaves the buffer equal to `a`'s buffer concatenated with `b`'s buffer,
byte-for-byte the text a plain `add_string` of `b`'s buffer would produce. -/
theorem add_string_storage_splices_with_offset (a b c : StringStorage)
    (_hcur : 1 ≤ a.current_line_no)
    (h : StringStorage.add_string_storage a b = some c) :
    c.storage = a.storage ++ b.storage ∧
    c.storage = (StringStorage.add_string a b.storage).storage ∧
    c.current_line_no = (StringStorage.add_string a b.storage).current_line_no ∧
    (∀ id r, (id, r) ∈ b.line_numbers →
      (id, LineRange.mk (r.start + (a.current_line_no - 1))
        (r.stop + (a.current_line_no - 1))) ∈ c.line_numbers) ∧
    (∀ e, e ∈ a.line_numbers → e ∈ c.line_numbers) ∧
    (∀ e, e ∈ c.line_numbers → e ∈ a.line_numbers ∨
      ∃ id r, (id, r) ∈ b.line_numbers ∧
        e = (id, LineRange.mk (r.start + (a.current_line_no - 1))
          (r.stop + (a.current_line_no - 1)))) := by
  obtain ⟨hst, hcu, hext⟩ := add_string_storage_some_fields a b c h
  obtain ⟨h1, h2, h3⟩ := extend_some_mem _ _ _ hext
  refine ⟨hst, hst, hcu, ?_, h1, ?_⟩
  · intro id r hr
    exact h2 _ ((mem_offset_iff _ _ _).mpr ⟨id, r, hr, rfl⟩)
  · intro e he
    rcases h3 e he with he2 | he2
    · exact Or.inl he2
    · exact Or.inr ((mem_offset_iff _ _ _).mp he2)

/-- Witness for C1 at a concrete pair of builders. -/
theorem add_string_storage_splices_with_offset_witness :
    (StringStorage.mk "x\ny\n" [(7, LineRange.mk 2 4)] 3).storage = "x\n" ++ "y\n" :=
  (add_string_storage_splices_with_offset
    (StringStorage.mk "x\n" [] 2)
    (StringStorage.mk "y\n" [(7, LineRange.mk 1 3)] 2)
    (StringStorage.mk "x\ny\n" [(7, LineRange.mk 2 4)] 3)
    (by decide) (by decide)).1

/-- C3: for an identifier absent from the index, `add_identifier_string`
appends exactly as `add_string` would, and records for the identifier the
half-open range from the cursor before the append to one past the cursor
after the append; every line physically spanned by the inserted text lies
inside that recorded range. -/
theorem add_identifier_string_records_range (b : StringStorage) (id : ErrId)
    (s : String) (habs : lnbkGet b.line_numbers id = none) :
    ∃ c, StringStorage.add_identifier_string b id s = some c ∧
      c.storage = (StringStorage.add_string b s).storage ∧
      c.current_line_no = (StringStorage.add_string b s).current_line_no ∧
      (id, LineRange.mk b.current_line_no
        ((StringStorage.add_string b s).current_line_no + 1)) ∈ c.line_numbers ∧
      (∀ e, e ∈ c.line_numbers ↔
        e = (id, LineRange.mk b.current_line_no
          ((StringStorage.add_string b s).current_line_no + 1)) ∨
        e ∈ b.line_numbers) ∧
      (∀ L, b.current_line_no ≤ L →
        L ≤ (StringStorage.add_string b s).current_line_no →
        containsLine (LineRange.mk b.current_line_no
          ((StringStorage.add_string b s).current_line_no + 1)) L = true) := by
  have key : StringStorage.add_identifier_string b id s
      = some (StringStorage.mk (b.storage ++ s)
          (insertSorted id (LineRange.mk b.current_line_no
            (b.current_line_no + countNewlines s + 1)) b.line_numbers)
          (b.current_line_no + countNewlines s)) := by
    show (match LineNumbersByKey.add b.line_numbers id
        (LineRange.mk b.current_line_no (b.current_line_no + countNewlines s + 1)) with
      | none => (none : Option StringStorage)
      | some ln => some (StringStorage.mk (b.storage ++ s) ln
          (b.current_line_no + countNewlines s))) = _
    rw [(add_eq_some_iff b.line_numbers _ id _).mpr ⟨habs, rfl⟩]
  refine ⟨_, key, rfl, rfl, ?_, ?_, ?_⟩
  · exact (mem_insertSorted_iff b.line_numbers id _ habs _).mpr (Or.inl rfl)
  · intro e
    exact mem_insertSorted_iff b.line_numbers id _ habs e
  · intro L hL1 hL2
    simp only [containsLine, Bool.and_eq_true, decide_eq_true_eq]
    exact ⟨hL1, Nat.lt_succ_of_le hL2⟩

/-- Witness for C3 at a concrete builder. -/
theorem add_identifier_string_records_range_witness :
    (StringStorage.add_identifier_string StringStorage.default 5 "a\nb").isSome = true := by
  obtain ⟨c, hc, -⟩ := add_identifier_string_records_range StringStorage.default 5 "a\nb" (by decide)
  rw [hc]
  rfl

/-- C4: for every builder reachable from `StringStorage::default()` by
`add_string`, `add_identifier_string` and `add_string_storage` calls, the
cursor equals one plus the number of line terminators in the buffer. -/
theorem reachable_cursor_invariant (b : StringStorage) (h : Reachable b) :
    b.current_line_no = 1 + countNewlines b.storage := by
  induction h with
  | base => decide
  | step_add_string b2 s hb ih =>
    show b2.current_line_no + countNewlines s = 1 + countNewlines (b2.storage ++ s)
    rw [countNewlines_append, ih]
    omega
  | step_add_identifier_string b2 id s c hb heq ih =>
    obtain ⟨hst, hcu, -⟩ := add_identifier_string_some_fields b2 id s c heq
    rw [hcu, hst, countNewlines_append, ih]
    omega
  | step_add_string_storage a2 b2 c ha hb heq iha ihb =>
    obtain ⟨hst, hcu, -⟩ := add_string_storage_some_fields a2 b2 c heq
    rw [hcu, hst, countNewlines_append, iha]
    omega

/-- Witness for C4 at a concrete reachable builder. -/
theorem reachable_cursor_invariant_witness :
    (StringStorage.add_string StringStorage.default "a\nb\n").current_line_no
      = 1 + countNewlines (StringStorage.add_string StringStorage.default "a\nb\n").storage :=
  reachable_cursor_invariant _
    (Reachable.step_add_string StringStorage.default "a\nb\n" Reachable.base)

/-- C5: the routing loop of `Scene::get_new_material` fills each bucket with
exactly the diagnostics `routedTo` sends there, in the order received: a
recognized diagnostic owned by a range goes to that identifier's bucket as
`(local line, message)`, a recognized diagnostic owned by no range goes to
the default identifier's bucket as `(line, message)`, and an unparsed
message goes to the default identifier's bucket as `(usize::MAX, message)`. -/
theorem collectErrors_bucket_contents (ln : LineNumbersByKey) (diags : List Diag)
    (id : ErrId) :
    bucketsGetD (collectErrors ln diags) id = diags.filterMap (routedTo ln id) := by
  show bucketsGetD (diags.foldl (routeDiag ln) []) id = _
  rw [bucketsGetD_foldl]
  rfl

/-- C2: on a well-formed (key-sorted) index, `get_identifier` returns the
entry with the smallest identifier whose half-open range contains the queried
line, paired with local line `n - start + 1`, and returns `none` exactly when
no stored range contains the line; ties between overlapping ranges go to the
smaller identifier. -/
theorem get_identifier_first_in_key_order (m : LineNumbersByKey) (n : Nat)
    (hs : lnbkSortedKeys m) :
    (∀ id loc, LineNumbersByKey.get_identifier m n = some (id, loc) →
      ∃ r, (id, r) ∈ m ∧ containsLine r n = true ∧ loc = n - r.start + 1 ∧
        ∀ id2 r2, (id2, r2) ∈ m → containsLine r2 n = true → id ≤ id2) ∧
    (LineNumbersByKey.get_identifier m n = none ↔
      ∀ id r, (id, r) ∈ m → containsLine r n = false) := by
  induction hs with
  | nil =>
    constructor
    · intro id loc h
      simp [LineNumbersByKey.get_identifier] at h
    · simp [LineNumbersByKey.get_identifier]
  | @cons hd tl hk htl ih =>
    obtain ⟨k, r0⟩ := hd
    by_cases hc : containsLine r0 n = true
    · have hgi : LineNumbersByKey.get_identifier ((k, r0) :: tl) n
          = some (k, n - r0.start + 1) := by
        unfold LineNumbersByKey.get_identifier
        rw [List.find?_cons_of_pos tl hc]
        rfl
      constructor
      · intro id loc h
        rw [hgi] at h
        have h2 := Option.some.inj h
        have hk1 : k = id := congrArg Prod.fst h2
        have hl1 : n - r0.start + 1 = loc := congrArg Prod.snd h2
        refine ⟨r0, ?_, hc, hl1.symm, ?_⟩
        · rw [← hk1]
          exact List.mem_cons_self _ _
        · intro id2 r2 hm2 hc2
          rcases List.mem_cons.mp hm2 with he | he
          · have : id2 = k := congrArg Prod.fst he
            rw [this, ← hk1]
          · rw [← hk1]
            exact le_of_lt (hk _ he)
      · rw [hgi]
        constructor
        · intro h
          exact absurd h (by simp)
        · intro hall
          have h2 := hall k r0 (List.mem_cons_self _ _)
          rw [h2] at hc
          exact absurd hc (by simp)
    · have hgi : LineNumbersByKey.get_identifier ((k, r0) :: tl) n
          = LineNumbersByKey.get_identifier tl n := by
        unfold LineNumbersByKey.get_identifier
        rw [List.find?_cons_of_neg tl hc]
      obtain ⟨ih1, ih2⟩ := ih
      constructor
      · intro id loc h
        rw [hgi] at h
        obtain ⟨r, hmem, hcon, hloc, hmin⟩ := ih1 id loc h
        refine ⟨r, List.mem_cons_of_mem _ hmem, hcon, hloc, ?_⟩
        intro id2 r2 hm2 hc2
        rcases List.mem_cons.mp hm2 with he | he
        · have hr2 : r2 = r0 := congrArg Prod.snd he
          rw [hr2] at hc2
          exact absurd hc2 hc
        · exact hmin id2 r2 he hc2
      · rw [hgi, ih2]
        constructor
        · intro hall id r hm
          rcases List.mem_cons.mp hm with he | he
          · have hr : r = r0 := congrArg Prod.snd he
            rw [hr]
            simpa using hc
          · exact hall id r he
        · intro hall id r hm
          exact hall id r (List.mem_cons_of_mem _ hm)

/-- Witness for C2 at a concrete sorted index holding two overlapping
ranges that both contain line 4: the smaller identifier wins. -/
theorem get_identifier_first_in_key_order_witness :
    LineNumbersByKey.get_identifier [(3, LineRange.mk 2 6), (8, LineRange.mk 4 9)] 4
      = some (3, 3) := by
  obtain ⟨h1, -⟩ := get_identifier_first_in_key_order
    [(3, LineRange.mk 2 6), (8, LineRange.mk 4 9)] 4 (by simp [lnbkSortedKeys])
  cases hg : LineNumbersByKey.get_identifier [(3, LineRange.mk 2 6), (8, LineRange.mk 4 9)] 4 with
  | none => exact absurd hg (by decide)
  | some p =>
    obtain ⟨id, loc⟩ := p
    obtain ⟨r, hmem, hcon, hloc, hmin⟩ := h1 id loc hg
    have h8 : id ≤ 3 := hmin 3 (LineRange.mk 2 6) (by decide) (by decide)
    rcases List.mem_cons.mp hmem with he | he
    · have hid : id = 3 := congrArg Prod.fst he
      have hr : r = LineRange.mk 2 6 := congrArg Prod.snd he
      rw [hid, hloc, hr]
      decide
    · rcases List.mem_cons.mp he with he2 | he2
      · have hid : id = 8 := congrArg Prod.fst he2
        rw [hid] at h8
        exact absurd h8 (by decide)
      · exact absurd he2 (by simp)

/-- C6 counterexample: a named builder that no placeholder of the template
consumes is NOT an error — `apply_template` succeeds and silently drops the
unused entry, contradicting the claim that unused entries are fatal. -/
theorem apply_template_unused_entry_not_error :
    (apply_template "abc" [("unused", StringStorage.default)]).isSome = true ∧
    apply_template "abc" [("unused", StringStorage.default)]
      = some (StringStorage.add_string StringStorage.default "abc") := by
  decide

/-- C6 amended: template expansion fails (the `.expect` panic, embedded as
`none`) when a placeholder name referenced in the template has no
corresponding named builder in the mapping; a named builder never consumed
by any placeholder is silently ignored, not an error. -/
theorem apply_template_missing_placeholder_fails (template : String)
    (storages : List (String × StringStorage)) (s : String)
    (hmem : (true, s) ∈ tagTemplatePieces (rustSplit template "//%"))
    (habs : ∀ v : StringStorage, (s, v) ∉ storages) :
    apply_template template storages = none :=
  applyTemplateGo_missing_none s (tagTemplatePieces (rustSplit template "//%"))
    StringStorage.default storages hmem habs

/-- Witness for the amended C6 at a concrete template. -/
theorem apply_template_missing_placeholder_fails_witness :
    apply_template "a//%missing//%b" [] = none :=
  apply_template_missing_placeholder_fails "a//%missing//%b" [] "missing"
    (by decide) (by simp)

/-- C7 counterexample: identifier construction is NOT injective across
category/position pairs: `Material` at position 1003 and `Object` at
position 3 are distinct pairs yet produce the same identifier
`ErrId(2003)`. -/
theorem identifier_collision_material_object :
    identifier EntityCategory.material 1003 = identifier EntityCategory.object 3 ∧
    decide ((EntityCategory.material, (1003 : Nat)) = (EntityCategory.object, 3)) = false := by
  decide

/-- C7 amended: identifier construction is injective as long as every
ordinal position stays below 1000 (the stride between the category bases). -/
theorem identifier_injective_of_pos_lt_1000 (c1 c2 : EntityCategory) (p1 p2 : Nat)
    (h1 : p1 < 1000) (h2 : p2 < 1000)
    (heq : identifier c1 p1 = identifier c2 p2) : (c1, p1) = (c2, p2) := by
  have heqn : @Eq Nat (identifier c1 p1) (identifier c2 p2) := heq
  have hc : c1 = c2 := by
    cases c1 <;> cases c2 <;> simp only [identifier] at heqn <;>
      first
        | rfl
        | exact absurd heqn (by omega)
  subst hc
  have hp : p1 = p2 := by
    cases c1 <;> simp only [identifier] at heqn <;> omega
  rw [hp]

/-- Witness for the amended C7 at concrete categories and positions. -/
theorem identifier_injective_of_pos_lt_1000_witness :
    ((EntityCategory.material, (3 : Nat)) = (EntityCategory.material, 3)) :=
  identifier_injective_of_pos_lt_1000 EntityCategory.material EntityCategory.material
    3 3 (by decide) (by decide) (by decide)

/-- C8: inserting a range under an identifier already present in the index
fails loudly (the `assert!` panic, embedded as `none`) rather than silently
overwriting: directly via `add`, via an identified append whose builder
already holds the identifier, via `extend` from an index sharing the
identifier, and via `add_string_storage` when both builders hold it. -/
theorem duplicate_identifier_fails (m : LineNumbersByKey) (id : ErrId)
    (r0 r : LineRange) (h : lnbkGet m id = some r0) :
    LineNumbersByKey.add m id r = none ∧
    (∀ (b : StringStorage) (s : String), b.line_numbers = m →
      StringStorage.add_identifier_string b id s = none) ∧
    (∀ (other : LineNumbersByKey) (r2 : LineRange), (id, r2) ∈ other →
      LineNumbersByKey.extend m other = none) ∧
    (∀ (a b : StringStorage) (r2 : LineRange), a.line_numbers = m →
      (id, r2) ∈ b.line_numbers → StringStorage.add_string_storage a b = none) := by
  have hmem : (id, r0) ∈ m := lnbkGet_some_mem m id r0 h
  refine ⟨add_eq_none_of_get_some m id r0 r h, ?_, ?_, ?_⟩
  · intro b s hb
    exact add_identifier_string_eq_none b id s r0 (by rw [hb]; exact h)
  · intro other r2 h2
    exact extend_eq_none_of_dup id other m r0 r2 hmem h2
  · intro a b r2 ha hb
    exact add_string_storage_eq_none_of_dup a b id r0 r2 (by rw [ha]; exact hmem) hb

/-- Witness for C8 at a concrete index. -/
theorem duplicate_identifier_fails_witness :
    LineNumbersByKey.add [(5, LineRange.mk 1 3)] 5 (LineRange.mk 4 6) = none :=
  (duplicate_identifier_fails [(5, LineRange.mk 1 3)] 5 (LineRange.mk 1 3)
    (LineRange.mk 4 6) (by decide)).1

/-- C9: the worked example end to end.  Builder `s1` appends `"1\n2\n3\n"`
(cursor 4) then identified-appends `"\n4\n5\n"` under `ErrId 1` (cursor 7,
range `4..8`); builder `s2` appends `"a\nb"` (cursor 2) then
identified-appends `"c\nd"` under `ErrId 2` (cursor 3, range `2..4`);
expanding the template yields exactly the claimed text with ranges
`1 ↦ 11..15` and `2 ↦ 3..5`; against that document, line 13 back-maps to
`(ErrId 1, local 3)` and line 1 back-maps to the default identifier. -/
theorem worked_example_end_to_end :
    StringStorage.add_string StringStorage.default "1\n2\n3\n"
      = StringStorage.mk "1\n2\n3\n" [] 4 ∧
    StringStorage.add_identifier_string (StringStorage.mk "1\n2\n3\n" [] 4) 1 "\n4\n5\n"
      = some (StringStorage.mk "1\n2\n3\n\n4\n5\n" [(1, LineRange.mk 4 8)] 7) ∧
    StringStorage.add_string StringStorage.default "a\nb"
      = StringStorage.mk "a\nb" [] 2 ∧
    StringStorage.add_identifier_string (StringStorage.mk "a\nb" [] 2) 2 "c\nd"
      = some (StringStorage.mk "a\nbc\nd" [(2, LineRange.mk 2 4)] 3) ∧
    apply_template "abc\n//%s2//%\n\ne\nf\n//%s1//%\n9"
      [("s1", StringStorage.mk "1\n2\n3\n\n4\n5\n" [(1, LineRange.mk 4 8)] 7),
       ("s2", StringStorage.mk "a\nbc\nd" [(2, LineRange.mk 2 4)] 3)]
      = some (StringStorage.mk "abc\na\nbc\nd\n\ne\nf\n1\n2\n3\n\n4\n5\n\n9"
          [(1, LineRange.mk 11 15), (2, LineRange.mk 3 5)] 15) ∧
    LineNumbersByKey.get_identifier [(1, LineRange.mk 11 15), (2, LineRange.mk 3 5)] 13
      = some (1, 3) ∧
    LineNumbersByKey.get_identifier [(1, LineRange.mk 11 15), (2, LineRange.mk 3 5)] 1
      = none ∧
    collectErrors [(1, LineRange.mk 11 15), (2, LineRange.mk 3 5)]
      [Except.ok (13, "m1"), Except.ok (1, "m2")]
      = [(1, [(3, "m1")]), (errIdDefault, [(1, "m2")])] := by
  decide

/-- C10: a constructed identifier is never the reserved default `ErrId(0)`
(it is strictly larger), and no single diagnostic can be routed both to a
constructed identifier's bucket and to the default identifier's bucket. -/
theorem identifier_never_default (c : EntityCategory) (pos : Nat)
    (ln : LineNumbersByKey) (d : Diag) :
    errIdDefault < identifier c pos ∧
    (routedTo ln (identifier c pos) d = none ∨ routedTo ln errIdDefault d = none) := by
  have hlt : errIdDefault < identifier c pos := by
    cases c
    · exact Nat.lt_of_lt_of_le (by decide) (Nat.le_add_right 1000 pos)
    · exact Nat.lt_of_lt_of_le (by decide) (Nat.le_add_right 2000 pos)
    · exact Nat.lt_of_lt_of_le (by decide) (Nat.le_add_right 3000 pos)
    · exact Nat.lt_of_lt_of_le (by decide) (Nat.le_add_right 4000 pos)
  have hne : ¬(errIdDefault = identifier c pos) := Nat.ne_of_lt hlt
  refine ⟨hlt, ?_⟩
  cases d with
  | error msg =>
    exact Or.inl (by simp [routedTo, hne])
  | ok p =>
    obtain ⟨l, msg⟩ := p
    cases hg : LineNumbersByKey.get_identifier ln l with
    | none => exact Or.inl (by simp [routedTo, hg, hne])
    | some q =>
      obtain ⟨i, loc⟩ := q
      by_cases hi : i = identifier c pos
      · refine Or.inr ?_
        have hi2 : ¬(i = errIdDefault) := by
          rw [hi]
          exact fun h2 => hne h2.symm
        simp [routedTo, hg, hi2]
      · exact Or.inl (by simp [routedTo, hg, hi])

end Portal
